import Mathlib

/-!
Verification of the `blackscholes` Go package (option pricing, Greeks and
implied volatility).

The package computes over IEEE-754 `float64`.  We embed `float64` shallowly as
the type `EF` below: an exact real number, `+Inf`, `-Inf`, or `NaN`, with the
IEEE special-value propagation rules and exact real arithmetic on finite
values (rounding, overflow of huge finite results and the sign of zero are not
modelled).  Every function of the package is translated from the Go source
into a definition over `EF`; real-valued companion functions (suffix `R`)
capture the finite-input behaviour and carry the analytic proofs.
-/

set_option maxHeartbeats 1000000
set_option maxRecDepth 4000

noncomputable section

/-- Idealized `float64`: a real number, an infinity, or `NaN`. -/
inductive EF where
  | nan : EF
  | pinf : EF
  | ninf : EF
  | fin : ℝ → EF
deriving DecidableEq

namespace EF

/-- IEEE negation. -/
def neg : EF → EF
  | nan => nan
  | pinf => ninf
  | ninf => pinf
  | fin x => fin (-x)

/-- IEEE addition (exact on finite values). -/
def add : EF → EF → EF
  | nan, _ => nan
  | _, nan => nan
  | pinf, ninf => nan
  | ninf, pinf => nan
  | pinf, _ => pinf
  | _, pinf => pinf
  | ninf, _ => ninf
  | _, ninf => ninf
  | fin x, fin y => fin (x + y)

/-- IEEE subtraction, as addition of the negation. -/
def sub (a b : EF) : EF := add a (neg b)

/-- IEEE multiplication (exact on finite values; `0 * Inf = NaN`). -/
def mul : EF → EF → EF
  | nan, _ => nan
  | _, nan => nan
  | pinf, pinf => pinf
  | pinf, ninf => ninf
  | ninf, pinf => ninf
  | ninf, ninf => pinf
  | pinf, fin y => if y = 0 then nan else if y < 0 then ninf else pinf
  | fin x, pinf => if x = 0 then nan else if x < 0 then ninf else pinf
  | ninf, fin y => if y = 0 then nan else if y < 0 then pinf else ninf
  | fin x, ninf => if x = 0 then nan else if x < 0 then pinf else ninf
  | fin x, fin y => fin (x * y)

/-- IEEE division (exact on finite values; `x/0` is a signed infinity for
`x ≠ 0` and `NaN` for `x = 0`; `Inf/Inf = NaN`; `x/Inf = 0`). -/
def div : EF → EF → EF
  | nan, _ => nan
  | _, nan => nan
  | pinf, pinf => nan
  | pinf, ninf => nan
  | ninf, pinf => nan
  | ninf, ninf => nan
  | pinf, fin y => if y < 0 then ninf else pinf
  | ninf, fin y => if y < 0 then pinf else ninf
  | fin _, pinf => fin 0
  | fin _, ninf => fin 0
  | fin x, fin y => if y = 0 then (if x = 0 then nan else if x < 0 then ninf else pinf) else fin (x / y)

/-- IEEE `<` (false whenever an operand is `NaN`). -/
def blt : EF → EF → Bool
  | nan, _ => false
  | _, nan => false
  | ninf, ninf => false
  | ninf, _ => true
  | _, ninf => false
  | pinf, _ => false
  | fin _, pinf => true
  | fin x, fin y => decide (x < y)

/-- IEEE `≤` (false whenever an operand is `NaN`). -/
def ble : EF → EF → Bool
  | nan, _ => false
  | _, nan => false
  | ninf, _ => true
  | _, pinf => true
  | pinf, _ => false
  | fin _, ninf => false
  | fin x, fin y => decide (x ≤ y)

/-- IEEE `==` (false whenever an operand is `NaN`). -/
def beq : EF → EF → Bool
  | nan, _ => false
  | _, nan => false
  | pinf, pinf => true
  | ninf, ninf => true
  | pinf, _ => false
  | ninf, _ => false
  | _, pinf => false
  | _, ninf => false
  | fin x, fin y => decide (x = y)

/-- `math.Exp`: `Exp(+Inf) = +Inf`, `Exp(-Inf) = 0`, `Exp(NaN) = NaN`. -/
def exp : EF → EF
  | nan => nan
  | pinf => pinf
  | ninf => fin 0
  | fin x => fin (Real.exp x)

/-- `math.Log`: `Log(0) = -Inf`, `Log(x < 0) = NaN`, `Log(+Inf) = +Inf`,
`Log(NaN) = NaN`. -/
def log : EF → EF
  | nan => nan
  | pinf => pinf
  | ninf => nan
  | fin x => if x = 0 then ninf else if x < 0 then nan else fin (Real.log x)

/-- `math.Sqrt`: `Sqrt(x < 0) = NaN`, `Sqrt(+Inf) = +Inf`, `Sqrt(NaN) = NaN`. -/
def sqrt : EF → EF
  | nan => nan
  | pinf => pinf
  | ninf => nan
  | fin x => if x < 0 then nan else fin (Real.sqrt x)

/-- `math.Pow` with a positive natural exponent, i.e. iterated IEEE
multiplication (the source only raises to the powers `2` and `2*i+1`). -/
def powN : EF → ℕ → EF
  | _, 0 => fin 1
  | x, n + 1 => mul x (powN x n)

/-- Go's `isFinite` helper: `!math.IsInf(f, 0) && !math.IsNaN(f)`. -/
def isFinite : EF → Bool
  | fin _ => true
  | _ => false

/-- `math.IsNaN`. -/
def isNaN : EF → Bool
  | nan => true
  | _ => false

/-- Go conversion `int(x)`: truncation toward zero on finite values.  For
`NaN` and infinities the conversion is implementation-specific in Go; on
amd64 it yields the minimal `int64`, which we adopt (no claim depends on
this corner). -/
def toInt : EF → ℤ
  | fin x => if 0 ≤ x then ⌊x⌋ else ⌈x⌉
  | _ => -(2 ^ 63)

@[simp] theorem neg_fin (x : ℝ) : neg (fin x) = fin (-x) := rfl

@[simp] theorem add_fin (x y : ℝ) : add (fin x) (fin y) = fin (x + y) := rfl

@[simp] theorem sub_fin (x y : ℝ) : sub (fin x) (fin y) = fin (x - y) := by
  simp [sub, sub_eq_add_neg]

@[simp] theorem mul_fin (x y : ℝ) : mul (fin x) (fin y) = fin (x * y) := rfl

@[simp] theorem exp_fin (x : ℝ) : exp (fin x) = fin (Real.exp x) := rfl

theorem div_fin (x y : ℝ) (hy : y ≠ 0) : div (fin x) (fin y) = fin (x / y) := by
  simp [div, hy]

theorem log_fin (x : ℝ) (hx : 0 < x) : log (fin x) = fin (Real.log x) := by
  simp [log, hx.ne', not_lt.2 hx.le]

theorem sqrt_fin (x : ℝ) (hx : 0 ≤ x) : sqrt (fin x) = fin (Real.sqrt x) := by
  simp [sqrt, not_lt.2 hx]

@[simp] theorem powN_fin (x : ℝ) (n : ℕ) : powN (fin x) n = fin (x ^ n) := by
  induction n with
  | zero => simp [powN]
  | succ n ih => rw [powN, ih, mul_fin, pow_succ, mul_comm]

@[simp] theorem blt_fin_fin (x y : ℝ) : blt (fin x) (fin y) = decide (x < y) := rfl

@[simp] theorem ble_fin_fin (x y : ℝ) : ble (fin x) (fin y) = decide (x ≤ y) := rfl

@[simp] theorem beq_fin_fin (x y : ℝ) : beq (fin x) (fin y) = decide (x = y) := rfl

@[simp] theorem isFinite_fin (x : ℝ) : isFinite (fin x) = true := rfl

@[simp] theorem isFinite_pinf : isFinite pinf = false := rfl

@[simp] theorem isFinite_ninf : isFinite ninf = false := rfl

@[simp] theorem isFinite_nan : isFinite nan = false := rfl

@[simp] theorem isNaN_fin (x : ℝ) : isNaN (fin x) = false := rfl

@[simp] theorem isNaN_pinf : isNaN pinf = false := rfl

@[simp] theorem isNaN_ninf : isNaN ninf = false := rfl

@[simp] theorem isNaN_nan : isNaN nan = true := rfl

@[simp] theorem toInt_fin (x : ℝ) : toInt (fin x) = if 0 ≤ x then ⌊x⌋ else ⌈x⌉ := rfl

theorem add_swap (a b : EF) : add a b = add b a := by
  cases a <;> cases b <;> simp [add, add_comm]

@[simp] theorem add_pinf_fin (x : ℝ) : add pinf (fin x) = pinf := rfl

@[simp] theorem add_fin_pinf (x : ℝ) : add (fin x) pinf = pinf := rfl

@[simp] theorem sub_pinf_fin (x : ℝ) : sub pinf (fin x) = pinf := rfl

@[simp] theorem sub_ninf_fin (x : ℝ) : sub ninf (fin x) = ninf := rfl

@[simp] theorem div_pinf_fin (x : ℝ) (hx : ¬ x < 0) : div pinf (fin x) = pinf := by
  simp [div, hx]

@[simp] theorem blt_fin_pinf (x : ℝ) : blt (fin x) pinf = true := rfl

@[simp] theorem ble_fin_ninf (x : ℝ) : ble (fin x) ninf = false := rfl

@[simp] theorem ble_ninf (a : EF) (h : a ≠ nan) : ble ninf a = true := by
  cases a <;> simp_all [ble]

@[simp] theorem ble_fin_pinf (x : ℝ) : ble (fin x) pinf = true := rfl

end EF

/-!
## The source functions, translated from `blackscholes.go`, `greeks.go` and
the implied-volatility file.
-/

/-- `doubleFactorial` (blackscholes.go): `val := 1.0; for i := n; i > 1; i -= 2 { val *= i }`.
The source computes in `float64`; it is only ever invoked at the odd natural
numbers `2*i+1`, `i < 100`, so we translate it as the corresponding real-valued
function of a natural number. -/
def doubleFactorial : ℕ → ℝ
  | 0 => 1
  | 1 => 1
  | n + 2 => (n + 2) * doubleFactorial n

/-- Natural-number companion of `doubleFactorial`, used to decide the size
comparison `8^200 < 199!!` by kernel computation. -/
def oddDF : ℕ → ℕ
  | 0 => 1
  | 1 => 1
  | n + 2 => (n + 2) * oddDF n

/-- `StdNormCDF` (blackscholes.go): saturated tails at `±8`, otherwise the
100-term odd power series multiplied by `exp(-0.5*x^2)/sqrt(2*pi)` plus `0.5`. -/
def StdNormCDF (x : EF) : EF :=
  if EF.ble (EF.fin 8) x then EF.fin 1
  else if EF.ble x (EF.fin (-8)) then EF.fin 0
  else
    let series := (List.range 100).foldl
      (fun probability i =>
        EF.add probability (EF.div (EF.powN x (2 * i + 1)) (EF.fin (doubleFactorial (2 * i + 1)))))
      (EF.fin 0)
    EF.add
      (EF.div (EF.mul series (EF.exp (EF.mul (EF.fin (-0.5)) (EF.powN x 2))))
        (EF.sqrt (EF.mul (EF.fin 2) (EF.fin Real.pi))))
      (EF.fin 0.5)

/-- `GetW` (blackscholes.go): `(r*t + math.Pow(v, 2)*t/2 - math.Log(k/s)) / (v * math.Sqrt(t))`. -/
def GetW (s k t v r : EF) : EF :=
  EF.div
    (EF.sub (EF.add (EF.mul r t) (EF.div (EF.mul (EF.powN v 2) t) (EF.fin 2)))
      (EF.log (EF.div k s)))
    (EF.mul v (EF.sqrt t))

/-- `BlackScholes` (blackscholes.go): the option price; `w` is computed inline
by the same expression as `GetW`, then the CALL formula is used when
`callPut == "CALL"` and the PUT formula otherwise. -/
def BlackScholes (s k t v r : EF) (callPut : String) : EF :=
  let w := EF.div
    (EF.sub (EF.add (EF.mul r t) (EF.div (EF.mul (EF.powN v 2) t) (EF.fin 2)))
      (EF.log (EF.div k s)))
    (EF.mul v (EF.sqrt t))
  if callPut = "CALL" then
    EF.sub (EF.mul s (StdNormCDF w))
      (EF.mul (EF.mul k (EF.exp (EF.mul (EF.neg r) t)))
        (StdNormCDF (EF.sub w (EF.mul v (EF.sqrt t)))))
  else
    EF.sub
      (EF.mul (EF.mul k (EF.exp (EF.mul (EF.neg r) t)))
        (StdNormCDF (EF.sub (EF.mul v (EF.sqrt t)) w)))
      (EF.mul s (StdNormCDF (EF.neg w)))

/-- `callDelta` (greeks.go). -/
def callDelta (s k t v r : EF) : EF :=
  let w := GetW s k t v r
  if ! EF.isFinite w then (if EF.blt k s then EF.fin 1 else EF.fin 0)
  else StdNormCDF w

/-- `putDelta` (greeks.go). -/
def putDelta (s k t v r : EF) : EF :=
  let delta := EF.sub (callDelta s k t v r) (EF.fin 1)
  if EF.beq delta (EF.fin (-1)) && EF.beq k s then EF.fin 0 else delta

/-- `GetDelta` (greeks.go): dispatches on the exact strings `"CALL"` / `"PUT"`,
otherwise returns `0` together with an error naming the offending value. -/
def GetDelta (s k t v r : EF) (callPut : String) : EF × Option String :=
  if callPut = "CALL" then (callDelta s k t v r, none)
  else if callPut = "PUT" then (putDelta s k t v r, none)
  else (EF.fin 0, some ("callput is not of type CALL or PUT " ++ callPut))

/-- `callRho` (greeks.go): guarded by `!math.IsNaN(w)` only. -/
def callRho (s k t v r : EF) : EF :=
  let w := GetW s k t v r
  if ! EF.isNaN w then
    EF.mul (EF.mul (EF.mul k t) (EF.exp (EF.mul (EF.neg r) t)))
      (StdNormCDF (EF.sub w (EF.mul v (EF.sqrt t))))
  else EF.fin 0

/-- `putRho` (greeks.go): guarded by `!math.IsNaN(w)` only. -/
def putRho (s k t v r : EF) : EF :=
  let w := GetW s k t v r
  if ! EF.isNaN w then
    EF.mul (EF.mul (EF.mul (EF.neg k) t) (EF.exp (EF.mul (EF.neg r) t)))
      (StdNormCDF (EF.sub (EF.mul v (EF.sqrt t)) w))
  else EF.fin 0

/-- `GetRho` (greeks.go): `scale` defaults to `100` when `0`; dispatch is on
the lower-case string `"call"`, anything else is priced as a put. -/
def GetRho (s k t v r : EF) (callPut : String) (scale : ℤ) : EF :=
  let scale := if scale = 0 then 100 else scale
  if callPut = "call" then EF.div (callRho s k t v r) (EF.fin (scale : ℝ))
  else EF.div (putRho s k t v r) (EF.fin (scale : ℝ))

/-- The loop of `GetImpliedVolatility` (100 iterations max), with state
`(low, high, estimate)`; `break` returns the current estimate. -/
def ivLoop (expectedCost s k t r : EF) (callPut : String) : ℕ → EF → EF → EF → EF
  | 0, _, _, estimate => estimate
  | n + 1, low, high, estimate =>
    let actualCost := BlackScholes s k t estimate r callPut
    if EF.toInt (EF.mul expectedCost (EF.fin 100)) = EF.toInt (EF.mul actualCost (EF.fin 100)) then
      estimate
    else if EF.blt expectedCost actualCost then
      ivLoop expectedCost s k t r callPut n low estimate
        (EF.add (EF.div (EF.sub estimate low) (EF.fin 2)) low)
    else
      let low2 := estimate
      let estimate2 := EF.add (EF.div (EF.sub high estimate) (EF.fin 2)) estimate
      ivLoop expectedCost s k t r callPut n low2 high
        (if ! EF.isFinite estimate2 then EF.mul low2 (EF.fin 2) else estimate2)

/-- `GetImpliedVolatility(expectedCost, s, k, t, r, callPut, estimate)`: seeds
the estimate at `0.1` when `estimate == 0`, then runs the bisection loop with
`low = 0`, `high = +Inf`. -/
def GetImpliedVolatility (expectedCost s k t r : EF) (callPut : String) (estimate : EF) : EF :=
  let estimate := if EF.beq estimate (EF.fin 0) then EF.fin 0.1 else estimate
  ivLoop expectedCost s k t r callPut 100 (EF.fin 0) EF.pinf estimate

/-- Modelled from the spec: `impliedVolatility(targetPrice, k, s, t, r, kind,
initialEstimate)` as documented in §4.4/§6, whose second parameter is the
strike `k` and third the underlying `s`; each iteration evaluates the pricer
as `price(s, k, t, estimate, r, kind)`, i.e. with the solver's *third*
parameter in the pricer's underlying slot. -/
def GetImpliedVolatilitySpecOrder (expectedCost k s t r : EF) (callPut : String) (estimate : EF) : EF :=
  let estimate := if EF.beq estimate (EF.fin 0) then EF.fin 0.1 else estimate
  ivLoop expectedCost s k t r callPut 100 (EF.fin 0) EF.pinf estimate

/-- Modelled from the spec: one iteration step of the bisection algorithm as
worded in claim C4 / spec §4.4 — stop when prices agree to the truncated cent;
on overshoot `high = estimate`, `estimate = low + (estimate - low)/2`; on
undershoot `low = estimate`, `estimate = estimate + (high - estimate)/2`,
falling back to `estimate = low * 2` when that midpoint is non-finite. -/
def ivSpecLoop (targetPrice s k t r : EF) (callPut : String) : ℕ → EF → EF → EF → EF
  | 0, _, _, estimate => estimate
  | n + 1, low, high, estimate =>
    let actualCost := BlackScholes s k t estimate r callPut
    if EF.toInt (EF.mul targetPrice (EF.fin 100)) = EF.toInt (EF.mul actualCost (EF.fin 100)) then
      estimate
    else if EF.blt targetPrice actualCost then
      ivSpecLoop targetPrice s k t r callPut n low estimate
        (EF.add low (EF.div (EF.sub estimate low) (EF.fin 2)))
    else
      let low2 := estimate
      let mid := EF.add estimate (EF.div (EF.sub high estimate) (EF.fin 2))
      ivSpecLoop targetPrice s k t r callPut n low2 high
        (if ! EF.isFinite mid then EF.mul low2 (EF.fin 2) else mid)

/-- Modelled from the spec: the full bisection algorithm of claim C4 — seed
`estimate = 0.1` when `initialEstimate == 0`, iterate `ivSpecLoop` at most 100
times from `low = 0`, `high = +Inf`, and return the estimate the loop ends
with. -/
def ivSpec (targetPrice s k t r : EF) (callPut : String) (initialEstimate : EF) : EF :=
  let estimate := if EF.beq initialEstimate (EF.fin 0) then EF.fin 0.1 else initialEstimate
  ivSpecLoop targetPrice s k t r callPut 100 (EF.fin 0) EF.pinf estimate

/-!
## Real-valued companions used to state and prove the finite-input claims.
-/

/-- The 100-term odd power series of `StdNormCDF`, at the real level. -/
def cdfSeries (x : ℝ) : ℝ :=
  ∑ i ∈ Finset.range 100, x ^ (2 * i + 1) / doubleFactorial (2 * i + 1)

/-- `StdNormCDF` at the real level. -/
def stdNormCDFR (x : ℝ) : ℝ :=
  if 8 ≤ x then 1
  else if x ≤ -8 then 0
  else cdfSeries x * Real.exp (-0.5 * x ^ 2) / Real.sqrt (2 * Real.pi) + 0.5

/-- `GetW` at the real level. -/
def getWR (s k t v r : ℝ) : ℝ :=
  (r * t + v ^ 2 * t / 2 - Real.log (k / s)) / (v * Real.sqrt t)

/-!
## Reduction lemmas: the `EF` definitions on finite inputs compute the
real-valued companions.
-/

theorem doubleFactorial_pos : ∀ n : ℕ, 0 < doubleFactorial n
  | 0 => by norm_num [doubleFactorial]
  | 1 => by norm_num [doubleFactorial]
  | n + 2 => by
    have h := doubleFactorial_pos n
    rw [doubleFactorial]
    positivity

theorem doubleFactorial_eq_oddDF : ∀ n : ℕ, doubleFactorial n = (oddDF n : ℝ)
  | 0 => by norm_num [doubleFactorial, oddDF]
  | 1 => by norm_num [doubleFactorial, oddDF]
  | n + 2 => by
    rw [doubleFactorial, oddDF, doubleFactorial_eq_oddDF n]
    push_cast
    ring

theorem foldl_add_div_fin (x : ℝ) : ∀ (l : List ℕ) (a : ℝ),
    l.foldl
      (fun p i => EF.add p (EF.div (EF.powN (EF.fin x) (2 * i + 1)) (EF.fin (doubleFactorial (2 * i + 1)))))
      (EF.fin a)
    = EF.fin (a + (l.map fun i => x ^ (2 * i + 1) / doubleFactorial (2 * i + 1)).sum)
  | [], a => by simp
  | i :: l, a => by
    simp only [List.foldl_cons, List.map_cons, List.sum_cons]
    rw [EF.powN_fin, EF.div_fin _ _ (doubleFactorial_pos _).ne', EF.add_fin,
      foldl_add_div_fin x l]
    rw [add_assoc]

theorem list_range_map_sum (f : ℕ → ℝ) : ∀ n : ℕ,
    ((List.range n).map f).sum = ∑ i ∈ Finset.range n, f i
  | 0 => by simp
  | n + 1 => by
    rw [List.range_succ, List.map_append, List.sum_append, Finset.sum_range_succ,
      list_range_map_sum f n]
    simp

theorem sqrt_two_pi_pos : 0 < Real.sqrt (2 * Real.pi) :=
  Real.sqrt_pos.2 (by positivity)

theorem StdNormCDF_fin (x : ℝ) : StdNormCDF (EF.fin x) = EF.fin (stdNormCDFR x) := by
  unfold StdNormCDF stdNormCDFR
  rw [EF.ble_fin_fin, EF.ble_fin_fin]
  by_cases h1 : 8 ≤ x
  · simp [h1]
  · by_cases h2 : x ≤ -8
    · simp [h1, h2]
    · simp only [h1, h2, decide_eq_true_eq, if_false, decide_eq_false_iff_not, if_neg]
      rw [foldl_add_div_fin, list_range_map_sum, EF.powN_fin, EF.mul_fin, EF.exp_fin,
        EF.mul_fin, EF.mul_fin, EF.sqrt_fin _ (by positivity),
        EF.div_fin _ _ sqrt_two_pi_pos.ne', EF.add_fin]
      rw [zero_add]
      rfl

theorem GetW_fin (s k t v r : ℝ) (hs : 0 < s) (hk : 0 < k) (ht : 0 < t) (hv : 0 < v) :
    GetW (EF.fin s) (EF.fin k) (EF.fin t) (EF.fin v) (EF.fin r) = EF.fin (getWR s k t v r) := by
  have hks : (0 : ℝ) < k / s := by positivity
  have hvt : v * Real.sqrt t ≠ 0 :=
    mul_ne_zero hv.ne' (Real.sqrt_ne_zero'.2 ht)
  unfold GetW getWR
  rw [EF.div_fin _ _ hs.ne', EF.log_fin _ hks, EF.powN_fin, EF.mul_fin, EF.mul_fin,
    EF.div_fin _ _ (by norm_num : (2 : ℝ) ≠ 0), EF.add_fin, EF.sub_fin,
    EF.sqrt_fin _ ht.le, EF.mul_fin, EF.div_fin _ _ hvt]

theorem BlackScholes_eq (s k t v r : EF) (callPut : String) :
    BlackScholes s k t v r callPut =
      if callPut = "CALL" then
        EF.sub (EF.mul s (StdNormCDF (GetW s k t v r)))
          (EF.mul (EF.mul k (EF.exp (EF.mul (EF.neg r) t)))
            (StdNormCDF (EF.sub (GetW s k t v r) (EF.mul v (EF.sqrt t)))))
      else
        EF.sub
          (EF.mul (EF.mul k (EF.exp (EF.mul (EF.neg r) t)))
            (StdNormCDF (EF.sub (EF.mul v (EF.sqrt t)) (GetW s k t v r))))
          (EF.mul s (StdNormCDF (EF.neg (GetW s k t v r)))) := rfl

theorem BlackScholes_CALL_fin (s k t v r : ℝ) (hs : 0 < s) (hk : 0 < k) (ht : 0 < t)
    (hv : 0 < v) :
    BlackScholes (EF.fin s) (EF.fin k) (EF.fin t) (EF.fin v) (EF.fin r) "CALL" =
      EF.fin (s * stdNormCDFR (getWR s k t v r) -
        k * Real.exp (-r * t) * stdNormCDFR (getWR s k t v r - v * Real.sqrt t)) := by
  rw [BlackScholes_eq, if_pos rfl, GetW_fin s k t v r hs hk ht hv,
    EF.sqrt_fin _ ht.le]
  simp [StdNormCDF_fin]

theorem BlackScholes_PUT_fin (s k t v r : ℝ) (hs : 0 < s) (hk : 0 < k) (ht : 0 < t)
    (hv : 0 < v) :
    BlackScholes (EF.fin s) (EF.fin k) (EF.fin t) (EF.fin v) (EF.fin r) "PUT" =
      EF.fin (k * Real.exp (-r * t) * stdNormCDFR (v * Real.sqrt t - getWR s k t v r) -
        s * stdNormCDFR (-getWR s k t v r)) := by
  rw [BlackScholes_eq, if_neg (by decide), GetW_fin s k t v r hs hk ht hv,
    EF.sqrt_fin _ ht.le]
  simp [StdNormCDF_fin]

/-!
## Claims C2, C3: the pricing formula and the CDF shape.
-/

/-- C2: for every `s>0, k>0, t>0, v>0` and any real `r`, with
`w = (r·t + v²·t/2 − ln(k/s))/(v·√t)`, the pricer returns
`s·Φ(w) − k·e^(−r·t)·Φ(w − v√t)` for CALL and
`k·e^(−r·t)·Φ(v√t − w) − s·Φ(−w)` for PUT, where `Φ` is the module's
`StdNormCDF`. -/
theorem price_formula_explicit (s k t v r : ℝ) (hs : 0 < s) (hk : 0 < k) (ht : 0 < t)
    (hv : 0 < v) :
    BlackScholes (EF.fin s) (EF.fin k) (EF.fin t) (EF.fin v) (EF.fin r) "CALL" =
      EF.fin (s * stdNormCDFR ((r * t + v ^ 2 * t / 2 - Real.log (k / s)) / (v * Real.sqrt t)) -
        k * Real.exp (-(r * t)) *
          stdNormCDFR ((r * t + v ^ 2 * t / 2 - Real.log (k / s)) / (v * Real.sqrt t) -
            v * Real.sqrt t)) ∧
    BlackScholes (EF.fin s) (EF.fin k) (EF.fin t) (EF.fin v) (EF.fin r) "PUT" =
      EF.fin (k * Real.exp (-(r * t)) *
          stdNormCDFR (v * Real.sqrt t -
            (r * t + v ^ 2 * t / 2 - Real.log (k / s)) / (v * Real.sqrt t)) -
        s * stdNormCDFR (-((r * t + v ^ 2 * t / 2 - Real.log (k / s)) / (v * Real.sqrt t)))) := by
  constructor
  · rw [BlackScholes_CALL_fin s k t v r hs hk ht hv]
    simp only [getWR, neg_mul]
  · rw [BlackScholes_PUT_fin s k t v r hs hk ht hv]
    simp only [getWR, neg_mul]

/-- Witness for C2 at `s = k = t = v = 1`, `r = 0`. -/
theorem price_formula_explicit_witness :
    (0 : ℝ) < 1 ∧
    (BlackScholes (EF.fin 1) (EF.fin 1) (EF.fin 1) (EF.fin 1) (EF.fin 0) "CALL" =
      EF.fin (1 * stdNormCDFR ((0 * 1 + 1 ^ 2 * 1 / 2 - Real.log (1 / 1)) / (1 * Real.sqrt 1)) -
        1 * Real.exp (-(0 * 1)) *
          stdNormCDFR ((0 * 1 + 1 ^ 2 * 1 / 2 - Real.log (1 / 1)) / (1 * Real.sqrt 1) -
            1 * Real.sqrt 1)) ∧
    BlackScholes (EF.fin 1) (EF.fin 1) (EF.fin 1) (EF.fin 1) (EF.fin 0) "PUT" =
      EF.fin (1 * Real.exp (-(0 * 1)) *
          stdNormCDFR (1 * Real.sqrt 1 -
            (0 * 1 + 1 ^ 2 * 1 / 2 - Real.log (1 / 1)) / (1 * Real.sqrt 1)) -
        1 * stdNormCDFR (-((0 * 1 + 1 ^ 2 * 1 / 2 - Real.log (1 / 1)) / (1 * Real.sqrt 1))))) :=
  ⟨by norm_num,
    price_formula_explicit 1 1 1 1 0 (by norm_num) (by norm_num) (by norm_num) (by norm_num)⟩

/-- C3: `StdNormCDF` returns exactly 1 for `x ≥ 8`, exactly 0 for `x ≤ −8`,
exactly 0.5 at `x = 0`, and for `−8 < x < 8` the value
`0.5 + (Σ_{i<100} x^(2i+1)/(2i+1)!!)·exp(−x²/2)/√(2π)`. -/
theorem stdNormCDF_shape (x : ℝ) :
    (8 ≤ x → StdNormCDF (EF.fin x) = EF.fin 1) ∧
    (x ≤ -8 → StdNormCDF (EF.fin x) = EF.fin 0) ∧
    StdNormCDF (EF.fin 0) = EF.fin 0.5 ∧
    (-8 < x → x < 8 → StdNormCDF (EF.fin x) =
      EF.fin (0.5 + (∑ i ∈ Finset.range 100, x ^ (2 * i + 1) / doubleFactorial (2 * i + 1)) *
        Real.exp (-x ^ 2 / 2) / Real.sqrt (2 * Real.pi))) := by
  refine ⟨fun h => ?_, fun h => ?_, ?_, fun h1 h2 => ?_⟩
  · rw [StdNormCDF_fin]; unfold stdNormCDFR; rw [if_pos h]
  · rw [StdNormCDF_fin]; unfold stdNormCDFR
    rw [if_neg (by linarith), if_pos h]
  · rw [StdNormCDF_fin]; unfold stdNormCDFR cdfSeries
    rw [if_neg (by norm_num), if_neg (by norm_num)]
    congr 1
    rw [Finset.sum_eq_zero fun i _ => by rw [zero_pow (by omega), zero_div]]
    ring
  · rw [StdNormCDF_fin]; unfold stdNormCDFR cdfSeries
    rw [if_neg (by linarith), if_neg (by linarith)]
    congr 1
    rw [show (-x ^ 2 / 2 : ℝ) = -0.5 * x ^ 2 by ring]
    ring

/-- Witness for C3: the saturated branch at `x = 9`, and the value at `x = 0`. -/
theorem stdNormCDF_shape_witness :
    (8 ≤ (9 : ℝ)) ∧ StdNormCDF (EF.fin 9) = EF.fin 1 ∧ StdNormCDF (EF.fin 0) = EF.fin 0.5 :=
  ⟨by norm_num, (stdNormCDF_shape 9).1 (by norm_num), (stdNormCDF_shape 9).2.2.1⟩

/-!
## Claims C6, C7, C9: delta and rho dispatch, error handling.
-/

/-- C6: for every input, delta with kind CALL is `Φ(w)` when `w` is finite and
`1` if `s > k` else `0` when `w` is non-finite; delta with kind PUT is
`callDelta − 1`, except that when that difference is exactly `−1` and `s == k`
it is `0`. -/
theorem delta_dispatch (s k t v r : EF) :
    GetDelta s k t v r "CALL" =
      ((if ! EF.isFinite (GetW s k t v r) then (if EF.blt k s then EF.fin 1 else EF.fin 0)
        else StdNormCDF (GetW s k t v r)), none) ∧
    GetDelta s k t v r "PUT" =
      ((if EF.beq (EF.sub (callDelta s k t v r) (EF.fin 1)) (EF.fin (-1)) && EF.beq k s
        then EF.fin 0
        else EF.sub (callDelta s k t v r) (EF.fin 1)), none) := by
  constructor
  · rw [show GetDelta s k t v r "CALL" = (callDelta s k t v r, none) from rfl]
    rfl
  · rfl

/-- C7: for every input, rho with kind `"call"` is
`k·t·e^(−r·t)·Φ(w−v√t)/scale` and any other kind gives
`−k·t·e^(−r·t)·Φ(v√t−w)/scale`; the zero fallback is taken exactly when `w`
is NaN (`EF.isNaN`, which is false on infinities), and `scale` defaults to
100 when passed as 0. -/
theorem rho_dispatch (s k t v r : EF) (kind : String) (scale : ℤ) :
    GetRho s k t v r kind scale =
      (if kind = "call" then
        EF.div
          (if EF.isNaN (GetW s k t v r) then EF.fin 0
            else EF.mul (EF.mul (EF.mul k t) (EF.exp (EF.mul (EF.neg r) t)))
              (StdNormCDF (EF.sub (GetW s k t v r) (EF.mul v (EF.sqrt t)))))
          (EF.fin ((if scale = 0 then 100 else scale : ℤ) : ℝ))
      else
        EF.div
          (if EF.isNaN (GetW s k t v r) then EF.fin 0
            else EF.mul (EF.mul (EF.mul (EF.neg k) t) (EF.exp (EF.mul (EF.neg r) t)))
              (StdNormCDF (EF.sub (EF.mul v (EF.sqrt t)) (GetW s k t v r))))
          (EF.fin ((if scale = 0 then 100 else scale : ℤ) : ℝ))) := by
  unfold GetRho callRho putRho
  cases hn : EF.isNaN (GetW s k t v r) <;> by_cases hc : kind = "call" <;>
    simp [hn, hc]

/-- C9: delta with a kind that is neither `"CALL"` nor `"PUT"` returns the
float 0 together with an error message naming the offending kind value; for
`"CALL"` and `"PUT"` the error is `none`. -/
theorem delta_invalid_kind (s k t v r : EF) (kind : String)
    (h1 : kind ≠ "CALL") (h2 : kind ≠ "PUT") :
    GetDelta s k t v r kind =
      (EF.fin 0, some ("callput is not of type CALL or PUT " ++ kind)) ∧
    (GetDelta s k t v r "CALL").2 = none ∧
    (GetDelta s k t v r "PUT").2 = none := by
  refine ⟨?_, rfl, rfl⟩
  unfold GetDelta
  rw [if_neg h1, if_neg h2]

/-- Witness for C9 at kind `"BOGUS"`. -/
theorem delta_invalid_kind_witness :
    ("BOGUS" ≠ "CALL") ∧ ("BOGUS" ≠ "PUT") ∧
    (GetDelta (EF.fin 1) (EF.fin 1) (EF.fin 1) (EF.fin 1) (EF.fin 0) "BOGUS" =
      (EF.fin 0, some ("callput is not of type CALL or PUT " ++ "BOGUS")) ∧
    (GetDelta (EF.fin 1) (EF.fin 1) (EF.fin 1) (EF.fin 1) (EF.fin 0) "CALL").2 = none ∧
    (GetDelta (EF.fin 1) (EF.fin 1) (EF.fin 1) (EF.fin 1) (EF.fin 0) "PUT").2 = none) :=
  ⟨by decide, by decide,
    delta_invalid_kind (EF.fin 1) (EF.fin 1) (EF.fin 1) (EF.fin 1) (EF.fin 0) "BOGUS"
      (by decide) (by decide)⟩

/-!
## Claim C10: no validation of `kind` in the pricer, and the solver forwards
`kind` unchanged.
-/

theorem BlackScholes_kind_put (s k t v r : EF) (kind : String) (h : kind ≠ "CALL") :
    BlackScholes s k t v r kind = BlackScholes s k t v r "PUT" := by
  rw [BlackScholes_eq, BlackScholes_eq, if_neg h, if_neg (by decide)]

theorem ivLoop_kind_put (tp s k t r : EF) (kind : String) (h : kind ≠ "CALL") :
    ∀ (n : ℕ) (low high est : EF),
      ivLoop tp s k t r kind n low high est = ivLoop tp s k t r "PUT" n low high est
  | 0, _, _, _ => rfl
  | n + 1, low, high, est => by
    simp only [ivLoop, BlackScholes_kind_put s k t est r kind h]
    split_ifs
    any_goals rfl
    all_goals exact ivLoop_kind_put tp s k t r kind h n _ _ _

/-- C10: the pricer performs no validation of `kind`: every kind other than
exactly `"CALL"` (for instance `"call"`, `"BOGUS"`, or a misspelt `"PUT"`) is
priced with the PUT formula, and the implied-volatility solver forwards its
kind argument unchanged into this dispatch. -/
theorem no_kind_validation (kind : String) (h : kind ≠ "CALL") :
    (∀ s k t v r : EF, BlackScholes s k t v r kind = BlackScholes s k t v r "PUT") ∧
    (∀ tp s k t r e : EF,
      GetImpliedVolatility tp s k t r kind e = GetImpliedVolatility tp s k t r "PUT" e) := by
  refine ⟨fun s k t v r => BlackScholes_kind_put s k t v r kind h, fun tp s k t r e => ?_⟩
  unfold GetImpliedVolatility
  exact ivLoop_kind_put tp s k t r kind h 100 _ _ _

/-- Witness for C10 at kind `"call"` (a lower-case misspelling of CALL). -/
theorem no_kind_validation_witness :
    ("call" ≠ "CALL") ∧
    BlackScholes (EF.fin 1) (EF.fin 1) (EF.fin 1) (EF.fin 1) (EF.fin 0) "call" =
      BlackScholes (EF.fin 1) (EF.fin 1) (EF.fin 1) (EF.fin 1) (EF.fin 0) "PUT" ∧
    GetImpliedVolatility (EF.fin 1) (EF.fin 1) (EF.fin 1) (EF.fin 1) (EF.fin 0) "call"
        (EF.fin 1) =
      GetImpliedVolatility (EF.fin 1) (EF.fin 1) (EF.fin 1) (EF.fin 1) (EF.fin 0) "PUT"
        (EF.fin 1) :=
  ⟨by decide,
    (no_kind_validation "call" (by decide)).1 (EF.fin 1) (EF.fin 1) (EF.fin 1) (EF.fin 1)
      (EF.fin 0),
    (no_kind_validation "call" (by decide)).2 (EF.fin 1) (EF.fin 1) (EF.fin 1) (EF.fin 1)
      (EF.fin 0) (EF.fin 1)⟩

/-!
## Claim C4: the solver follows exactly the bisection algorithm of the spec.
-/

theorem ivLoop_eq_ivSpecLoop (tp s k t r : EF) (kind : String) :
    ∀ (n : ℕ) (low high est : EF),
      ivLoop tp s k t r kind n low high est = ivSpecLoop tp s k t r kind n low high est
  | 0, _, _, _ => rfl
  | n + 1, low, high, est => by
    simp only [ivLoop, ivSpecLoop]
    rw [EF.add_swap low (EF.div (EF.sub est low) (EF.fin 2)),
      EF.add_swap est (EF.div (EF.sub high est) (EF.fin 2))]
    split_ifs
    any_goals rfl
    all_goals exact ivLoop_eq_ivSpecLoop tp s k t r kind n _ _ _

/-- C4: for every input, `GetImpliedVolatility` computes exactly the bisection
algorithm described by the spec (`ivSpec`): seed `0.1` when the initial
estimate `== 0`, at most 100 iterations, stop when the prices agree after
truncation to the cent, move `high` down and bisect toward `low` on
overshoot, move `low` up and bisect toward `high` on undershoot with the
`low·2` fallback when the midpoint is non-finite, and return the estimate the
loop ends with. -/
theorem solver_follows_spec (tp s k t r : EF) (kind : String) (e : EF) :
    GetImpliedVolatility tp s k t r kind e = ivSpec tp s k t r kind e := by
  unfold GetImpliedVolatility ivSpec
  exact ivLoop_eq_ivSpecLoop tp s k t r kind 100 _ _ _

/-!
## Claim C5: put-call parity.  The truncated series CDF satisfies
`Φ(x) + Φ(−x) = 1` exactly, so parity holds exactly (hence within `1e-6`).
-/

theorem cdfSeries_neg (x : ℝ) : cdfSeries (-x) = -cdfSeries x := by
  unfold cdfSeries
  rw [← Finset.sum_neg_distrib]
  refine Finset.sum_congr rfl fun i _ => ?_
  rw [Odd.neg_pow ⟨i, by ring⟩, neg_div]

theorem stdNormCDFR_add_neg (x : ℝ) : stdNormCDFR x + stdNormCDFR (-x) = 1 := by
  unfold stdNormCDFR
  by_cases h1 : 8 ≤ x
  · rw [if_pos h1, if_neg (by linarith), if_pos (by linarith)]
    norm_num
  · by_cases h2 : x ≤ -8
    · rw [if_neg h1, if_pos h2, if_pos (by linarith)]
      norm_num
    · rw [if_neg h1, if_neg h2, if_neg (by linarith), if_neg (by linarith)]
      rw [cdfSeries_neg, show ((-x) ^ 2 : ℝ) = x ^ 2 from by ring]
      ring

/-- C5: for every `s>0, k>0, t>0, v>0` and real `r`, the CALL price minus the
PUT price equals `s − k·e^(−r·t)` within an absolute tolerance of `1e-6`
(in fact exactly, since the module's CDF satisfies `Φ(x)+Φ(−x) = 1`). -/
theorem put_call_parity (s k t v r : ℝ) (hs : 0 < s) (hk : 0 < k) (ht : 0 < t) (hv : 0 < v) :
    ∃ c p : ℝ,
      BlackScholes (EF.fin s) (EF.fin k) (EF.fin t) (EF.fin v) (EF.fin r) "CALL" = EF.fin c ∧
      BlackScholes (EF.fin s) (EF.fin k) (EF.fin t) (EF.fin v) (EF.fin r) "PUT" = EF.fin p ∧
      |c - p - (s - k * Real.exp (-(r * t)))| ≤ 1e-6 := by
  refine ⟨_, _, BlackScholes_CALL_fin s k t v r hs hk ht hv,
    BlackScholes_PUT_fin s k t v r hs hk ht hv, ?_⟩
  have e1 : stdNormCDFR (-getWR s k t v r) = 1 - stdNormCDFR (getWR s k t v r) := by
    linarith [stdNormCDFR_add_neg (getWR s k t v r)]
  have e2 : stdNormCDFR (v * Real.sqrt t - getWR s k t v r) =
      1 - stdNormCDFR (getWR s k t v r - v * Real.sqrt t) := by
    rw [show v * Real.sqrt t - getWR s k t v r = -(getWR s k t v r - v * Real.sqrt t) from by
      ring]
    linarith [stdNormCDFR_add_neg (getWR s k t v r - v * Real.sqrt t)]
  simp only [neg_mul, e1, e2]
  rw [show s * stdNormCDFR (getWR s k t v r) -
      k * Real.exp (-(r * t)) * stdNormCDFR (getWR s k t v r - v * Real.sqrt t) -
      (k * Real.exp (-(r * t)) * (1 - stdNormCDFR (getWR s k t v r - v * Real.sqrt t)) -
        s * (1 - stdNormCDFR (getWR s k t v r))) -
      (s - k * Real.exp (-(r * t))) = 0 from by ring]
  norm_num

/-- Witness for C5 at `s = k = t = v = 1`, `r = 0`. -/
theorem put_call_parity_witness :
    ∃ c p : ℝ,
      BlackScholes (EF.fin 1) (EF.fin 1) (EF.fin 1) (EF.fin 1) (EF.fin 0) "CALL" = EF.fin c ∧
      BlackScholes (EF.fin 1) (EF.fin 1) (EF.fin 1) (EF.fin 1) (EF.fin 0) "PUT" = EF.fin p ∧
      |c - p - (1 - 1 * Real.exp (-((0 : ℝ) * 1)))| ≤ 1e-6 :=
  put_call_parity 1 1 1 1 0 (by norm_num) (by norm_num) (by norm_num) (by norm_num)

/-!
## Claim C1: the solver's parameter order.  At `t = 0` the pricer is exact
(`s − k` for an in-the-money CALL, `0` out of the money), which lets the two
parameter conventions be evaluated in closed form and separated.
-/

theorem EF.div_fin_zero_pos (x : ℝ) (hx : 0 < x) : EF.div (EF.fin x) (EF.fin 0) = EF.pinf := by
  simp [EF.div, hx.ne', not_lt.2 hx.le]

theorem EF.div_fin_zero_neg (x : ℝ) (hx : x < 0) : EF.div (EF.fin x) (EF.fin 0) = EF.ninf := by
  simp [EF.div, hx.ne, hx]

theorem StdNormCDF_pinf : StdNormCDF EF.pinf = EF.fin 1 := rfl

theorem StdNormCDF_ninf : StdNormCDF EF.ninf = EF.fin 0 := rfl

theorem GetW_t0_up (e : ℝ) :
    GetW (EF.fin 2) (EF.fin 1) (EF.fin 0) (EF.fin e) (EF.fin 0) = EF.pinf := by
  unfold GetW
  rw [EF.powN_fin, EF.mul_fin, EF.mul_fin, EF.div_fin _ 2 (by norm_num), EF.add_fin,
    EF.div_fin 1 2 (by norm_num), EF.log_fin _ (by norm_num), EF.sub_fin,
    EF.sqrt_fin 0 le_rfl, EF.mul_fin]
  rw [show (e * Real.sqrt 0 : ℝ) = 0 from by rw [Real.sqrt_zero, mul_zero],
    show (0 * 0 + e ^ 2 * 0 / 2 - Real.log (1 / 2) : ℝ) = Real.log 2 from by
      rw [one_div, Real.log_inv]; ring]
  exact EF.div_fin_zero_pos _ (Real.log_pos one_lt_two)

theorem GetW_t0_down (e : ℝ) :
    GetW (EF.fin 1) (EF.fin 2) (EF.fin 0) (EF.fin e) (EF.fin 0) = EF.ninf := by
  unfold GetW
  rw [EF.powN_fin, EF.mul_fin, EF.mul_fin, EF.div_fin _ 2 (by norm_num), EF.add_fin,
    EF.div_fin 2 1 (by norm_num), EF.log_fin _ (by norm_num), EF.sub_fin,
    EF.sqrt_fin 0 le_rfl, EF.mul_fin]
  rw [show (e * Real.sqrt 0 : ℝ) = 0 from by rw [Real.sqrt_zero, mul_zero],
    show (0 * 0 + e ^ 2 * 0 / 2 - Real.log (2 / 1) : ℝ) = -Real.log 2 from by norm_num]
  exact EF.div_fin_zero_neg _ (neg_neg_iff_pos.2 (Real.log_pos one_lt_two))

theorem BS_t0_up (e : ℝ) :
    BlackScholes (EF.fin 2) (EF.fin 1) (EF.fin 0) (EF.fin e) (EF.fin 0) "CALL" = EF.fin 1 := by
  rw [BlackScholes_eq, if_pos rfl, GetW_t0_up e, EF.sqrt_fin 0 le_rfl]
  simp [StdNormCDF_pinf]
  norm_num

theorem BS_t0_down (e : ℝ) :
    BlackScholes (EF.fin 1) (EF.fin 2) (EF.fin 0) (EF.fin e) (EF.fin 0) "CALL" = EF.fin 0 := by
  rw [BlackScholes_eq, if_pos rfl, GetW_t0_down e, EF.sqrt_fin 0 le_rfl]
  simp [StdNormCDF_ninf]

theorem toInt_mul_100_one : EF.toInt (EF.mul (EF.fin 1) (EF.fin 100)) = 100 := by
  rw [EF.mul_fin, EF.toInt_fin, if_pos (by norm_num)]
  norm_num

theorem toInt_mul_100_zero : EF.toInt (EF.mul (EF.fin 0) (EF.fin 100)) = 0 := by
  rw [EF.mul_fin, EF.toInt_fin, if_pos (by norm_num)]
  norm_num

/-- On the in-the-money side the first iteration already matches the target
price `1` to the cent, so the loop breaks at once and returns the estimate. -/
theorem ivLoop_break_t0 (n : ℕ) (low high : EF) (e : ℝ) :
    ivLoop (EF.fin 1) (EF.fin 2) (EF.fin 1) (EF.fin 0) (EF.fin 0) "CALL" (n + 1) low high
      (EF.fin e) = EF.fin e := by
  simp only [ivLoop]
  rw [BS_t0_up e, if_pos rfl]

/-- On the out-of-the-money side the price is constantly `0 < 1`, `high` stays
`+Inf`, so the midpoint is non-finite and the solver doubles the estimate each
iteration. -/
theorem ivLoop_doubling_t0 : ∀ (n : ℕ) (low : EF) (e : ℝ), 0 < e →
    ivLoop (EF.fin 1) (EF.fin 1) (EF.fin 2) (EF.fin 0) (EF.fin 0) "CALL" n low EF.pinf
      (EF.fin e) = EF.fin (e * 2 ^ n)
  | 0, low, e, he => by simp [ivLoop]
  | n + 1, low, e, he => by
    simp only [ivLoop]
    rw [BS_t0_down e, if_neg (by rw [toInt_mul_100_one, toInt_mul_100_zero]; norm_num),
      if_neg (by rw [EF.blt_fin_fin]; simp),
      EF.sub_pinf_fin, EF.div_pinf_fin 2 (by norm_num), EF.add_pinf_fin]
    rw [show (! EF.isFinite EF.pinf) = true from rfl, if_pos rfl, EF.mul_fin,
      ivLoop_doubling_t0 n (EF.fin e) (e * 2) (by positivity)]
    rw [show (e * 2 * 2 ^ n : ℝ) = e * 2 ^ (n + 1) from by ring]

theorem code_solver_t0 :
    GetImpliedVolatility (EF.fin 1) (EF.fin 2) (EF.fin 1) (EF.fin 0) (EF.fin 0) "CALL"
      (EF.fin (1 / 2)) = EF.fin (1 / 2) := by
  unfold GetImpliedVolatility
  rw [show EF.beq (EF.fin (1 / 2)) (EF.fin 0) = false from by
    rw [EF.beq_fin_fin]; simp]
  exact ivLoop_break_t0 99 _ _ _

theorem specorder_solver_t0 :
    GetImpliedVolatilitySpecOrder (EF.fin 1) (EF.fin 2) (EF.fin 1) (EF.fin 0) (EF.fin 0) "CALL"
      (EF.fin (1 / 2)) = EF.fin (1 / 2 * 2 ^ 100) := by
  unfold GetImpliedVolatilitySpecOrder
  rw [show EF.beq (EF.fin (1 / 2)) (EF.fin 0) = false from by
    rw [EF.beq_fin_fin]; simp]
  exact ivLoop_doubling_t0 100 (EF.fin 0) (1 / 2) (by norm_num)

/-- C1 counterexample: at `targetPrice = 1`, second argument `2`, third
argument `1`, `t = 0`, `r = 0`, kind CALL, initial estimate `0.5`, the
solver as implemented returns `0.5` (its second argument is the *underlying*,
so the option is in the money and the very first price matches the target),
while a solver that treats the second argument as the strike — as the claim
states — returns `0.5·2^100`.  Hence the claim is false of the code. -/
theorem solver_param_order_counterexample :
    GetImpliedVolatility (EF.fin 1) (EF.fin 2) (EF.fin 1) (EF.fin 0) (EF.fin 0) "CALL"
      (EF.fin (1 / 2)) ≠
    GetImpliedVolatilitySpecOrder (EF.fin 1) (EF.fin 2) (EF.fin 1) (EF.fin 0) (EF.fin 0) "CALL"
      (EF.fin (1 / 2)) := by
  rw [code_solver_t0, specorder_solver_t0]
  intro h
  rw [EF.fin.injEq] at h
  norm_num at h

/-- C1 amended: the solver's public parameter order places the *underlying*
before the *strike*: `GetImpliedVolatility(targetPrice, a, b, t, r, kind, e)`
evaluates the pricer with `a` as the underlying `s` and `b` as the strike `k`;
equivalently, it coincides with the spec's strike-first solver with its second
and third arguments transposed. -/
theorem solver_param_order_amended (tp a b t r : EF) (kind : String) (e : EF) :
    GetImpliedVolatility tp a b t r kind e =
      GetImpliedVolatilitySpecOrder tp b a t r kind e := rfl

/-!
## Claim C8: delta bounds.  The key analytic fact is that the truncated
series CDF stays in `[0,1]`: with `T = cdfSeries` and
`g x = T x · exp(−x²/2)` one has `g' u = exp(−u²/2)·(1 − u²⁰⁰/199!!)`, so on
`[0,8]` the function `g` is an integral of a function squeezed between `0`
and the Gaussian, whose half-line integral is `√(2π)/2`.
-/

theorem pow_lt_oddDF : (8 : ℕ) ^ 200 < oddDF 199 := by decide

theorem bound8 : (8 : ℝ) ^ 200 ≤ doubleFactorial 199 := by
  rw [doubleFactorial_eq_oddDF]
  exact_mod_cast (pow_lt_oddDF).le

theorem doubleFactorial_add_two (n : ℕ) :
    doubleFactorial (n + 2) = ((n : ℝ) + 2) * doubleFactorial n := by
  rw [doubleFactorial]

theorem hasDerivAt_cdfSeries (x : ℝ) :
    HasDerivAt cdfSeries
      (∑ i ∈ Finset.range 100, (2 * (i : ℝ) + 1) * x ^ (2 * i) / doubleFactorial (2 * i + 1))
      x := by
  have h : ∀ i ∈ Finset.range 100,
      HasDerivAt (fun y : ℝ => y ^ (2 * i + 1) / doubleFactorial (2 * i + 1))
        ((2 * (i : ℝ) + 1) * x ^ (2 * i) / doubleFactorial (2 * i + 1)) x := by
    intro i _
    have h1 := (hasDerivAt_pow (2 * i + 1) x).div_const (doubleFactorial (2 * i + 1))
    have h2 : ((2 * i + 1 : ℕ) : ℝ) * x ^ (2 * i + 1 - 1) / doubleFactorial (2 * i + 1) =
        (2 * (i : ℝ) + 1) * x ^ (2 * i) / doubleFactorial (2 * i + 1) := by
      push_cast
      norm_num
    rwa [h2] at h1
  have hsum := HasDerivAt.sum h
  have : cdfSeries = fun y : ℝ =>
      ∑ i ∈ Finset.range 100, y ^ (2 * i + 1) / doubleFactorial (2 * i + 1) := rfl
  rw [this]
  exact hsum

theorem cdfSeries_telescope (x : ℝ) :
    (∑ i ∈ Finset.range 100, (2 * (i : ℝ) + 1) * x ^ (2 * i) / doubleFactorial (2 * i + 1)) -
      x * cdfSeries x = 1 - x ^ 200 / doubleFactorial 199 := by
  have key : ∀ i ∈ Finset.range 100,
      (2 * (i : ℝ) + 1) * x ^ (2 * i) / doubleFactorial (2 * i + 1) -
        x * (x ^ (2 * i + 1) / doubleFactorial (2 * i + 1)) =
      (fun j : ℕ => (2 * (j : ℝ) + 1) * x ^ (2 * j) / doubleFactorial (2 * j + 1)) i -
        (fun j : ℕ => (2 * (j : ℝ) + 1) * x ^ (2 * j) / doubleFactorial (2 * j + 1)) (i + 1) := by
    intro i _
    show _ = (2 * (i : ℝ) + 1) * x ^ (2 * i) / doubleFactorial (2 * i + 1) -
      (2 * ((i + 1 : ℕ) : ℝ) + 1) * x ^ (2 * (i + 1)) / doubleFactorial (2 * (i + 1) + 1)
    congr 1
    rw [show 2 * (i + 1) + 1 = (2 * i + 1) + 2 from by ring,
      doubleFactorial_add_two (2 * i + 1),
      show 2 * (i + 1) = (2 * i + 1) + 1 from by ring, pow_succ]
    have hD := (doubleFactorial_pos (2 * i + 1)).ne'
    push_cast
    field_simp
    ring
  rw [cdfSeries, Finset.mul_sum, ← Finset.sum_sub_distrib,
    Finset.sum_congr rfl key, Finset.sum_range_sub'
      (fun j : ℕ => (2 * (j : ℝ) + 1) * x ^ (2 * j) / doubleFactorial (2 * j + 1)) 100]
  have hdf201 : doubleFactorial 201 = 201 * doubleFactorial 199 := by
    have h := doubleFactorial_add_two 199
    norm_num at h
    exact h
  show (2 * ((0 : ℕ) : ℝ) + 1) * x ^ (2 * 0) / doubleFactorial (2 * 0 + 1) -
    (2 * ((100 : ℕ) : ℝ) + 1) * x ^ (2 * 100) / doubleFactorial (2 * 100 + 1) = _
  rw [show ((2 * 0 + 1 : ℕ)) = 1 from rfl, show ((2 * 100 + 1 : ℕ)) = 201 from rfl, hdf201,
    show doubleFactorial 1 = 1 from rfl]
  push_cast
  rw [show (2 * (100 : ℝ) + 1) * x ^ (2 * 100) / (201 * doubleFactorial 199) =
      (201 * (x ^ 200)) / (201 * doubleFactorial 199) from by norm_num,
    mul_div_mul_left _ _ (by norm_num : (201 : ℝ) ≠ 0)]
  norm_num

theorem exp_gauss_continuous : Continuous fun u : ℝ => Real.exp (-0.5 * u ^ 2) :=
  Real.continuous_exp.comp (continuous_const.mul (continuous_pow 2))

theorem integrand_continuous :
    Continuous fun u : ℝ => Real.exp (-0.5 * u ^ 2) * (1 - u ^ 200 / doubleFactorial 199) :=
  exp_gauss_continuous.mul (continuous_const.sub ((continuous_pow 200).div_const _))

theorem hasDerivAt_g (x : ℝ) :
    HasDerivAt (fun y : ℝ => cdfSeries y * Real.exp (-0.5 * y ^ 2))
      (Real.exp (-0.5 * x ^ 2) * (1 - x ^ 200 / doubleFactorial 199)) x := by
  have h1 : HasDerivAt (fun y : ℝ => -0.5 * y ^ 2) (-0.5 * (2 * x)) x := by
    have := (hasDerivAt_pow 2 x).const_mul (-0.5 : ℝ)
    simpa using this
  have hE := h1.exp
  have hT := hasDerivAt_cdfSeries x
  have hmul := hT.mul hE
  convert hmul using 1
  rw [← cdfSeries_telescope x]
  ring

theorem g_eq_integral (x : ℝ) :
    cdfSeries x * Real.exp (-0.5 * x ^ 2) =
      ∫ u in (0 : ℝ)..x, Real.exp (-0.5 * u ^ 2) * (1 - u ^ 200 / doubleFactorial 199) := by
  have hFTC := intervalIntegral.integral_eq_sub_of_hasDerivAt
    (f := fun y : ℝ => cdfSeries y * Real.exp (-0.5 * y ^ 2))
    (fun u _ => hasDerivAt_g u) (integrand_continuous.intervalIntegrable 0 x)
  rw [hFTC]
  have h0 : cdfSeries 0 = 0 :=
    Finset.sum_eq_zero fun i _ => by rw [zero_pow (by omega), zero_div]
  simp [h0]

theorem g_nonneg (x : ℝ) (h0 : 0 ≤ x) (h8 : x ≤ 8) :
    0 ≤ cdfSeries x * Real.exp (-0.5 * x ^ 2) := by
  rw [g_eq_integral]
  apply intervalIntegral.integral_nonneg h0
  intro u hu
  have hu0 : 0 ≤ u := hu.1
  have hu8 : u ≤ 8 := le_trans hu.2 h8
  have hpow : u ^ 200 ≤ doubleFactorial 199 :=
    le_trans (pow_le_pow_left₀ hu0 hu8 200) bound8
  have hq : 0 ≤ 1 - u ^ 200 / doubleFactorial 199 := by
    rw [sub_nonneg, div_le_one (doubleFactorial_pos 199)]
    exact hpow
  exact mul_nonneg (Real.exp_pos _).le hq

theorem g_le_sqrt (x : ℝ) (h0 : 0 ≤ x) :
    cdfSeries x * Real.exp (-0.5 * x ^ 2) ≤ Real.sqrt (2 * Real.pi) / 2 := by
  rw [g_eq_integral]
  have step1 : (∫ u in (0 : ℝ)..x,
        Real.exp (-0.5 * u ^ 2) * (1 - u ^ 200 / doubleFactorial 199)) ≤
      ∫ u in (0 : ℝ)..x, Real.exp (-0.5 * u ^ 2) := by
    apply intervalIntegral.integral_mono_on h0
      (integrand_continuous.intervalIntegrable 0 x)
      (exp_gauss_continuous.intervalIntegrable 0 x)
    intro u _
    have hq : 0 ≤ u ^ 200 / doubleFactorial 199 :=
      div_nonneg (by positivity) (doubleFactorial_pos 199).le
    nlinarith [(Real.exp_pos (-0.5 * u ^ 2)).le]
  have step2 : (∫ u in (0 : ℝ)..x, Real.exp (-0.5 * u ^ 2)) ≤ Real.sqrt (2 * Real.pi) / 2 := by
    have hInt : MeasureTheory.IntegrableOn (fun u : ℝ => Real.exp (-0.5 * u ^ 2))
        (Set.Ioi 0) :=
      (integrable_exp_neg_mul_sq (by norm_num : (0 : ℝ) < 0.5)).integrableOn
    have hIoi : (∫ u in Set.Ioi (0 : ℝ), Real.exp (-0.5 * u ^ 2)) =
        Real.sqrt (Real.pi / 0.5) / 2 := integral_gaussian_Ioi 0.5
    rw [intervalIntegral.integral_of_le h0]
    calc (∫ u in Set.Ioc (0 : ℝ) x, Real.exp (-0.5 * u ^ 2))
        ≤ ∫ u in Set.Ioi (0 : ℝ), Real.exp (-0.5 * u ^ 2) := by
          apply MeasureTheory.setIntegral_mono_set hInt
          · exact Filter.Eventually.of_forall fun u => (Real.exp_pos _).le
          · exact Set.Ioc_subset_Ioi_self.eventuallyLE
      _ = Real.sqrt (Real.pi / 0.5) / 2 := hIoi
      _ = Real.sqrt (2 * Real.pi) / 2 := by
          rw [show (Real.pi / 0.5 : ℝ) = 2 * Real.pi from by ring]
  linarith

theorem stdNormCDFR_mem_Icc (x : ℝ) : 0 ≤ stdNormCDFR x ∧ stdNormCDFR x ≤ 1 := by
  unfold stdNormCDFR
  by_cases h1 : 8 ≤ x
  · rw [if_pos h1]; norm_num
  · by_cases h2 : x ≤ -8
    · rw [if_neg h1, if_pos h2]; norm_num
    · rw [if_neg h1, if_neg h2]
      push_neg at h1 h2
      rcases le_or_lt 0 x with hx | hx
      · have ha := g_nonneg x hx h1.le
        have hb := g_le_sqrt x hx
        have hd1 : 0 ≤ cdfSeries x * Real.exp (-0.5 * x ^ 2) / Real.sqrt (2 * Real.pi) :=
          div_nonneg ha sqrt_two_pi_pos.le
        have hd2 : cdfSeries x * Real.exp (-0.5 * x ^ 2) / Real.sqrt (2 * Real.pi) ≤ 1 / 2 := by
          rw [div_le_iff₀ sqrt_two_pi_pos]
          linarith
        constructor <;> linarith
      · have ha := g_nonneg (-x) (by linarith) (by linarith)
        have hb := g_le_sqrt (-x) (by linarith)
        rw [cdfSeries_neg, show ((-x) ^ 2 : ℝ) = x ^ 2 from by ring, neg_mul] at ha hb
        have hd1 : -(1 / 2) ≤ cdfSeries x * Real.exp (-0.5 * x ^ 2) / Real.sqrt (2 * Real.pi) := by
          rw [neg_le, ← neg_div, div_le_iff₀ sqrt_two_pi_pos]
          linarith
        have hd2 : cdfSeries x * Real.exp (-0.5 * x ^ 2) / Real.sqrt (2 * Real.pi) ≤ 0 := by
          apply div_nonpos_of_nonpos_of_nonneg _ sqrt_two_pi_pos.le
          linarith
        constructor <;> linarith

theorem GetDelta_CALL (s k t v r : EF) :
    GetDelta s k t v r "CALL" = (callDelta s k t v r, none) := rfl

theorem GetDelta_PUT (s k t v r : EF) :
    GetDelta s k t v r "PUT" = (putDelta s k t v r, none) := rfl

theorem callDelta_fin (s k t v r : ℝ) (hs : 0 < s) (hk : 0 < k) (ht : 0 < t) (hv : 0 < v) :
    callDelta (EF.fin s) (EF.fin k) (EF.fin t) (EF.fin v) (EF.fin r) =
      EF.fin (stdNormCDFR (getWR s k t v r)) := by
  unfold callDelta
  rw [GetW_fin s k t v r hs hk ht hv]
  simp [StdNormCDF_fin]

/-- C8: for every `s>0, k>0, t>0, v>0` and real `r`, the call delta lies in
`[0,1]`, the put delta lies in `[−1,0]`, and `callDelta − putDelta = 1`
except in the at-the-money degenerate override, where the put delta is
forced to `0` (this fires exactly when the call delta is `0` and `k = s`). -/
theorem delta_bounds (s k t v r : ℝ) (hs : 0 < s) (hk : 0 < k) (ht : 0 < t) (hv : 0 < v) :
    ∃ c p : ℝ,
      GetDelta (EF.fin s) (EF.fin k) (EF.fin t) (EF.fin v) (EF.fin r) "CALL" =
        (EF.fin c, none) ∧
      GetDelta (EF.fin s) (EF.fin k) (EF.fin t) (EF.fin v) (EF.fin r) "PUT" =
        (EF.fin p, none) ∧
      0 ≤ c ∧ c ≤ 1 ∧ -1 ≤ p ∧ p ≤ 0 ∧
      (c - p = 1 ∨ (c = 0 ∧ s = k ∧ p = 0)) := by
  have hcd := callDelta_fin s k t v r hs hk ht hv
  obtain ⟨hc0, hc1⟩ := stdNormCDFR_mem_Icc (getWR s k t v r)
  have hCALL : GetDelta (EF.fin s) (EF.fin k) (EF.fin t) (EF.fin v) (EF.fin r) "CALL" =
      (EF.fin (stdNormCDFR (getWR s k t v r)), none) := by
    rw [GetDelta_CALL, hcd]
  by_cases hov : stdNormCDFR (getWR s k t v r) - 1 = -1 ∧ (k : ℝ) = s
  · have hput : putDelta (EF.fin s) (EF.fin k) (EF.fin t) (EF.fin v) (EF.fin r) = EF.fin 0 := by
      unfold putDelta
      simp only [hcd, EF.sub_fin, EF.beq_fin_fin]
      rw [decide_eq_true hov.1, decide_eq_true hov.2]
      simp
    exact ⟨stdNormCDFR (getWR s k t v r), 0, hCALL, by rw [GetDelta_PUT, hput], hc0, hc1,
      by norm_num, le_refl 0, Or.inr ⟨by linarith [hov.1], hov.2.symm, rfl⟩⟩
  · have hput : putDelta (EF.fin s) (EF.fin k) (EF.fin t) (EF.fin v) (EF.fin r) =
        EF.fin (stdNormCDFR (getWR s k t v r) - 1) := by
      unfold putDelta
      simp only [hcd, EF.sub_fin, EF.beq_fin_fin]
      have hfalse : (decide (stdNormCDFR (getWR s k t v r) - 1 = -1) && decide (k = s)) =
          false := by
        rcases not_and_or.mp hov with h | h <;> simp [h]
      rw [hfalse]
      simp
    exact ⟨stdNormCDFR (getWR s k t v r), stdNormCDFR (getWR s k t v r) - 1, hCALL,
      by rw [GetDelta_PUT, hput], hc0, hc1, by linarith, by linarith, Or.inl (by ring)⟩

/-- Witness for C8 at `s = k = t = v = 1`, `r = 0`. -/
theorem delta_bounds_witness :
    (0 : ℝ) < 1 ∧
    ∃ c p : ℝ,
      GetDelta (EF.fin 1) (EF.fin 1) (EF.fin 1) (EF.fin 1) (EF.fin 0) "CALL" =
        (EF.fin c, none) ∧
      GetDelta (EF.fin 1) (EF.fin 1) (EF.fin 1) (EF.fin 1) (EF.fin 0) "PUT" =
        (EF.fin p, none) ∧
      0 ≤ c ∧ c ≤ 1 ∧ -1 ≤ p ∧ p ≤ 0 ∧
      (c - p = 1 ∨ (c = 0 ∧ (1 : ℝ) = 1 ∧ p = 0)) :=
  ⟨by norm_num, delta_bounds 1 1 1 1 0 (by norm_num) (by norm_num) (by norm_num) (by norm_num)⟩
